import Mathlib

/-!
Verification model of the inventory record store implemented in
`main.py` (class `InventoryManager`, backed by one sqlite table
`inventory`).  Pure Lean functions model the four CRUD operations;
the sqlite engine is modelled by an explicit store value plus a
boolean `engineOk` flag standing for "the engine does not raise
`sqlite3.Error` during this call".  All operations in the source
catch their exceptions and communicate through printed messages,
so each model returns a message value describing the diagnostic
printed, together with the resulting store.
-/

namespace Inventory

/-- One row of the `inventory` table (schema from `init_db`).
`id` is the `INTEGER PRIMARY KEY AUTOINCREMENT` column. -/
structure Row where
  id : Nat
  name : String
  category : String
  quantity : Int
  purchase_date : String
  status : String
  location : String
  responsible_person : String
  notes : String
deriving DecidableEq, Repr

/-- The persistent state: rows in insertion order plus the AUTOINCREMENT
counter (the next id sqlite will assign; AUTOINCREMENT never reuses an
id, even after deletes). -/
structure Store where
  rows : List Row
  nextId : Nat
deriving DecidableEq, Repr

/-! ### Date validation: `datetime.strptime(s, "%Y-%m-%d")`

Python strptime compiles the format to a regex: `%Y` is exactly four
digits, `%m` is `1[0-2]|0[1-9]|[1-9]`, `%d` is `3[01]|[12]\d|0[1-9]|[1-9]`,
and the whole string must be consumed; the resulting numbers must then
form a valid `datetime` (year at least 1, day within the month, with
leap years).  Digits are modelled as ASCII. -/

def isDigitCh (c : Char) : Bool := '0' ≤ c && c ≤ '9'

def digVal (c : Char) : Nat := c.toNat - 48

def isLeap (y : Nat) : Bool := (y % 4 == 0 && y % 100 != 0) || y % 400 == 0

def daysInMonth (y m : Nat) : Nat :=
  if m = 2 then (if isLeap y then 29 else 28)
  else if m = 4 || m = 6 || m = 9 || m = 11 then 30
  else 31

/-- Read a one- or two-digit numeric segment (maximal munch), returning
its value and the remaining characters. -/
def parseSeg : List Char → Option (Nat × List Char)
  | [] => none
  | [a] => if isDigitCh a then some (digVal a, []) else none
  | a :: b :: rest =>
    if isDigitCh a then
      if isDigitCh b then some (digVal a * 10 + digVal b, rest)
      else some (digVal a, b :: rest)
    else none

/-- `validDate s` holds iff `datetime.strptime(s, "%Y-%m-%d")` succeeds. -/
def validDate (s : String) : Bool :=
  match s.data with
  | y1 :: y2 :: y3 :: y4 :: '-' :: rest =>
    if isDigitCh y1 && isDigitCh y2 && isDigitCh y3 && isDigitCh y4 then
      let y := digVal y1 * 1000 + digVal y2 * 100 + digVal y3 * 10 + digVal y4
      match parseSeg rest with
      | some (m, '-' :: rest2) =>
        match parseSeg rest2 with
        | some (d, []) =>
          decide (1 ≤ y) && decide (1 ≤ m) && decide (m ≤ 12) &&
            decide (1 ≤ d) && decide (d ≤ daysInMonth y m)
        | _ => false
      | _ => false
    else false
  | _ => false

/-! ### The sqlite LIKE operator

`read_items` filters with `column LIKE '%' || pattern || '%'`.  Under
the sqlite default (`case_sensitive_like` off), LIKE compares ASCII
letters case-insensitively, and `%` / `_` inside the pattern are
wildcards (any sequence / any one character). -/

def lowerCh (c : Char) : Char :=
  if 'A' ≤ c && c ≤ 'Z' then Char.ofNat (c.toNat + 32) else c

/-- Does `f` hold of some suffix of the list (including itself and `[]`)? -/
def anySuffix (f : List Char → Bool) : List Char → Bool
  | [] => f []
  | c :: cs => f (c :: cs) || anySuffix f cs

/-- sqlite LIKE pattern matching (default, ASCII-case-insensitive). -/
def likeMatch : List Char → List Char → Bool
  | [], s => s.isEmpty
  | '%' :: ps, s => anySuffix (likeMatch ps) s
  | '_' :: ps, s =>
    match s with
    | [] => false
    | _ :: cs => likeMatch ps cs
  | p :: ps, s =>
    match s with
    | [] => false
    | c :: cs => lowerCh p == lowerCh c && likeMatch ps cs

/-- One filter condition `column LIKE '%value%'` applied to a cell text. -/
def likeContains (cell value : String) : Bool :=
  likeMatch ('%' :: (value.data ++ ['%'])) cell.data

/-! ### Spec-side substring containment

`specContains s pat` is literal (case-sensitive, wildcard-free)
substring containment, the reading used by the specification when it
says a field "contains the pattern as a substring".  It exists only to
be compared with the LIKE semantics the code actually gets. -/

def subAt : List Char → List Char → Bool
  | [], _ => true
  | _ :: _, [] => false
  | p :: ps, c :: cs => p == c && subAt ps cs

def subList (pat : List Char) : List Char → Bool
  | [] => pat.isEmpty
  | c :: cs => subAt pat (c :: cs) || subList pat cs

def specContains (s pat : String) : Bool := subList pat.data s.data

/-! ### Columns and cell access -/

/-- The column names of the `inventory` table (from `init_db`). -/
def columns : List String :=
  ["id", "name", "category", "quantity", "purchase_date", "status",
   "location", "responsible_person", "notes"]

def isCol (k : String) : Bool := columns.contains k

/-- The text sqlite compares when `LIKE` is applied to the column `k` of
row `r` (integer cells are rendered as their decimal text). -/
def getCol (r : Row) (k : String) : String :=
  if k = "id" then toString r.id
  else if k = "name" then r.name
  else if k = "category" then r.category
  else if k = "quantity" then toString r.quantity
  else if k = "purchase_date" then r.purchase_date
  else if k = "status" then r.status
  else if k = "location" then r.location
  else if k = "responsible_person" then r.responsible_person
  else if k = "notes" then r.notes
  else ""

/-! ### Validation errors and outcomes -/

/-- The three validation rules of `create_item` / `update_item`; each
corresponds to one distinct printed message in the source. -/
inductive ValidationError where
  | missingRequiredField   -- "Все обязательные поля должны быть заполнены"
  | negativeQuantity       -- "Количество не может быть отрицательным"
  | invalidDateFormat      -- ValueError raised by strptime
deriving DecidableEq, Repr

inductive CreateMsg where
  | success                      -- "✅ ... добавлен!"
  | valErr (e : ValidationError) -- "❌ Ошибка: ..."
  | dbError                      -- "❌ Ошибка БД: ..." (sqlite3.Error caught)
deriving DecidableEq, Repr

/-- Observable outcome of `create_item`: the printed diagnostic, the
Python return value (the source has no `return`, so it is always
`None`, modelled as `none`), and the resulting store. -/
structure CreateOut where
  msg : CreateMsg
  ret : Option Row
  st : Store
deriving DecidableEq, Repr

def requiredMissing (name category purchase_date status location : String) : Bool :=
  name == "" || category == "" || purchase_date == "" || status == "" || location == ""

/-- Input of `create_item` (id excluded; the two optional parameters
default to `""` at the call site). -/
structure CreateInput where
  name : String
  category : String
  quantity : Int
  purchase_date : String
  status : String
  location : String
  responsible_person : String
  notes : String
deriving DecidableEq, Repr

def mkRow (id : Nat) (inp : CreateInput) : Row :=
  ⟨id, inp.name, inp.category, inp.quantity, inp.purchase_date,
   inp.status, inp.location, inp.responsible_person, inp.notes⟩

/-- All three create validations pass. -/
def createValid (inp : CreateInput) : Bool :=
  !requiredMissing inp.name inp.category inp.purchase_date inp.status inp.location
    && decide (0 ≤ inp.quantity) && validDate inp.purchase_date

/-- `InventoryManager.create_item`.  Checks, in source order:
`not all([name, category, purchase_date, status, location])`, then
`quantity < 0`, then `strptime(purchase_date, "%Y-%m-%d")`; only then
opens the connection and INSERTs.  Every failure is caught and printed;
the function returns `None` on every path. -/
def create_item (engineOk : Bool) (inp : CreateInput) (st : Store) : CreateOut :=
  if requiredMissing inp.name inp.category inp.purchase_date inp.status inp.location then
    ⟨.valErr .missingRequiredField, none, st⟩
  else if inp.quantity < 0 then
    ⟨.valErr .negativeQuantity, none, st⟩
  else if !validDate inp.purchase_date then
    ⟨.valErr .invalidDateFormat, none, st⟩
  else if !engineOk then
    ⟨.dbError, none, st⟩
  else
    ⟨.success, none, ⟨st.rows ++ [mkRow st.nextId inp], st.nextId + 1⟩⟩

/-! ### read_items -/

/-- Observable outcome of `read_items`: the returned list and whether
the `except sqlite3.Error` branch ran (printing "❌ Ошибка чтения" and
returning `[]`).  The source catches every engine error, so the model
has no raised-error alternative. -/
structure ReadOut where
  ret : List Row
  dbErrorPrinted : Bool
deriving DecidableEq, Repr

/-- The filter entries that actually produce a condition: the source
iterates `filters.items()` and keeps entries with truthy (non-empty)
value; `filters` itself may be `None`. -/
def appliedConds : Option (List (String × String)) → List (String × String)
  | none => []
  | some fs => fs.filter (fun p => p.2 ≠ "")

/-- The `conditions` and `params` lists built inside `read_items`:
`conditions.append(f"{key} LIKE ?")`, `params.append(f"%{value}%")`.
The key is interpolated into the SQL text without any validation. -/
def buildConditions (fs : List (String × String)) : List String × List String :=
  ((fs.filter (fun p => p.2 ≠ "")).map (fun p => p.1 ++ " LIKE ?"),
   (fs.filter (fun p => p.2 ≠ "")).map (fun p => "%" ++ p.2 ++ "%"))

/-- A row satisfies every applied LIKE condition. -/
def rowMatches (conds : List (String × String)) (r : Row) : Bool :=
  conds.all (fun p => likeContains (getCol r p.1) p.2)

/-- Strict lexicographic comparison of character lists by codepoint;
for UTF-8 text this is exactly the byte order used by the sqlite
BINARY collation. -/
def charListLt : List Char → List Char → Bool
  | [], [] => false
  | [], _ :: _ => true
  | _ :: _, [] => false
  | a :: as, b :: bs => if a = b then charListLt as bs else decide (a < b)

/-- `a` may come before `b` under `ORDER BY name` (name not greater). -/
def nameLe (a b : Row) : Bool := !charListLt b.name.data a.name.data

/-- Rows ordered as `ORDER BY name` returns them: sorted by `name`
(byte order), equal names kept in table order.  Modelled by a stable
insertion sort. -/
def sortByName (l : List Row) : List Row :=
  l.insertionSort (fun a b => nameLe a b = true)

/-- `InventoryManager.read_items`.  The LIKE semantics of the filtered
read is modelled only for keys that are exactly the lowercase column
names of the schema (`isCol`).  What sqlite does with other interpolated
keys varies — identifiers resolve case-insensitively, `rowid`-style
aliases and arbitrary expressions are accepted, and only a genuinely
unresolvable key raises `sqlite3.OperationalError` (which the source
catches and turns into `[]`) — so the model collapses all non-`isCol`
keys into the caught-error branch, and every theorem about filtered
reads carries an `isCol` hypothesis that keeps it on the faithful
branch. -/
def read_items (engineOk : Bool) (filters : Option (List (String × String)))
    (st : Store) : ReadOut :=
  if !engineOk then ⟨[], true⟩
  else
    let conds := appliedConds filters
    if conds.any (fun p => !isCol p.1) then ⟨[], true⟩
    else ⟨sortByName (st.rows.filter (rowMatches conds)), false⟩

/-! ### update_item -/

/-- A value supplied for one field of an update: the source passes
`int` for `quantity` and `str` for the text fields. -/
inductive UpdValue where
  | i (n : Int)
  | s (v : String)
deriving DecidableEq, Repr

inductive UpdateMsg where
  | noData                       -- "❌ Нет данных для обновления"
  | noFields                     -- "❌ Нет полей для обновления"
  | valErr (e : ValidationError) -- "❌ Ошибка: ..." (ValueError caught)
  | typeError                    -- Python TypeError (mis-typed value; not caught)
  | updated                      -- "✅ ID ... обновлен!"
  | notFound                     -- "❌ ID ... не найден" (rowcount == 0)
  | dbError                      -- "❌ Ошибка БД: ..."
deriving DecidableEq, Repr

/-- Both rejections of an update that supplies nothing to change. -/
def UpdateMsg.isEmptyUpdateRejection : UpdateMsg → Bool
  | .noData => true
  | .noFields => true
  | _ => false

/-- `valid_fields` from `update_item` (note: `id` is absent). -/
def valid_fields : List String :=
  ["name", "category", "quantity", "purchase_date", "status",
   "location", "responsible_person", "notes"]

/-- The validation/collection loop of `update_item`: for each kwarg in
order, skip it if its name is not in `valid_fields` or its value is
`None`; otherwise check `quantity` non-negative and `purchase_date`
well-formed (raising = `.error` on the first failure), and collect the
pair.  Mis-typed values (str compared with 0, int given to strptime)
raise `TypeError` in Python, modelled as `.error .typeError`. -/
def collectFields : List (String × Option UpdValue) → Except UpdateMsg (List (String × UpdValue))
  | [] => .ok []
  | (_, none) :: rest => collectFields rest
  | (f, some v) :: rest =>
    if valid_fields.contains f then
      if f = "quantity" then
        match v with
        | .i n =>
          if n < 0 then .error (.valErr .negativeQuantity)
          else (collectFields rest).map (fun ups => (f, v) :: ups)
        | .s _ => .error .typeError
      else if f = "purchase_date" then
        match v with
        | .s d =>
          if validDate d then (collectFields rest).map (fun ups => (f, v) :: ups)
          else .error (.valErr .invalidDateFormat)
        | .i _ => .error .typeError
      else (collectFields rest).map (fun ups => (f, v) :: ups)
    else collectFields rest

/-- Apply one collected `field = ?` assignment to a row.  A mis-typed
pair (excluded by `typedKwargs` in every theorem) is left as a no-op
rather than modelling sqlite column-affinity coercion. -/
def applyField (r : Row) : String × UpdValue → Row
  | ("name", .s v) => { r with name := v }
  | ("category", .s v) => { r with category := v }
  | ("quantity", .i n) => { r with quantity := n }
  | ("purchase_date", .s v) => { r with purchase_date := v }
  | ("status", .s v) => { r with status := v }
  | ("location", .s v) => { r with location := v }
  | ("responsible_person", .s v) => { r with responsible_person := v }
  | ("notes", .s v) => { r with notes := v }
  | _ => r

def applyUpdates (r : Row) (ups : List (String × UpdValue)) : Row :=
  ups.foldl applyField r

/-- The typing discipline of the call sites: `quantity` carries an
`int`, every other field a `str`. -/
def typedVal : String → UpdValue → Bool
  | "quantity", .i _ => true
  | "quantity", .s _ => false
  | _, .s _ => true
  | _, .i _ => false

def typedEntry : String × Option UpdValue → Bool
  | (_, none) => true
  | (f, some v) => typedVal f v

def typedKwargs (kwargs : List (String × Option UpdValue)) : Bool :=
  kwargs.all typedEntry

/-- The cell of a recognized mutable field, as an update value. -/
def getF (r : Row) : String → Option UpdValue
  | "name" => some (.s r.name)
  | "category" => some (.s r.category)
  | "quantity" => some (.i r.quantity)
  | "purchase_date" => some (.s r.purchase_date)
  | "status" => some (.s r.status)
  | "location" => some (.s r.location)
  | "responsible_person" => some (.s r.responsible_person)
  | "notes" => some (.s r.notes)
  | _ => none

/-- `InventoryManager.update_item`.  Source order: `if not kwargs`
first, then the validation/collection loop (which can raise before any
connection is opened), then `if not update_fields`, then the UPDATE
with `WHERE id = ?`; `rowcount == 0` prints "not found". -/
def update_item (engineOk : Bool) (item_id : Nat)
    (kwargs : List (String × Option UpdValue)) (st : Store) : UpdateMsg × Store :=
  if kwargs.isEmpty then (.noData, st)
  else
    match collectFields kwargs with
    | .error m => (m, st)
    | .ok ups =>
      if ups.isEmpty then (.noFields, st)
      else if !engineOk then (.dbError, st)
      else if st.rows.any (fun r => r.id == item_id) then
        (.updated,
         ⟨st.rows.map (fun r => if r.id == item_id then applyUpdates r ups else r),
          st.nextId⟩)
      else (.notFound, st)

/-! ### delete_item -/

inductive DeleteMsg where
  | deleted   -- "✅ ID ... удален!"
  | notFound  -- "❌ ID ... не найден"
  | dbError   -- "❌ Ошибка удаления: ..."
deriving DecidableEq, Repr

/-- `InventoryManager.delete_item`: `DELETE FROM inventory WHERE id = ?`,
reporting via `rowcount`. -/
def delete_item (engineOk : Bool) (item_id : Nat) (st : Store) : DeleteMsg × Store :=
  if !engineOk then (.dbError, st)
  else if st.rows.any (fun r => r.id == item_id) then
    (.deleted, ⟨st.rows.filter (fun r => r.id != item_id), st.nextId⟩)
  else (.notFound, st)

/-! ### Invariants -/

/-- Row-level invariants the store actually maintains. -/
def RowOk (r : Row) : Prop := 0 ≤ r.quantity ∧ validDate r.purchase_date = true

/-- Store well-formedness: ids strictly increasing in table order, all
below the AUTOINCREMENT counter, and every row satisfying `RowOk`.
Holds of the empty initial store `⟨[], 1⟩`. -/
def StoreWF (st : Store) : Prop :=
  st.rows.Pairwise (fun a b => a.id < b.id) ∧
    ∀ r ∈ st.rows, r.id < st.nextId ∧ RowOk r

/-- Strict order "name ascending (byte order), ties by id ascending". -/
def nameIdLt (a b : Row) : Prop :=
  charListLt a.name.data b.name.data = true ∨ (a.name = b.name ∧ a.id < b.id)

/-- Facts holding of every pair the update validation loop collects:
a collected quantity is non-negative and a collected purchase date is
well-formed. -/
def entryOk (q : String × UpdValue) : Prop :=
  (q.1 = "quantity" → ∀ n : Int, q.2 = .i n → 0 ≤ n) ∧
  (q.1 = "purchase_date" → ∀ d : String, q.2 = .s d → validDate d = true)

/-! ### Concrete fixtures used by witnesses and counterexamples -/

def emptyStore : Store := ⟨[], 1⟩

def laptopInput : CreateInput :=
  ⟨"Laptop", "Electronics", 5, "2024-01-15", "in use", "Room 101", "", ""⟩

def laptopRow : Row :=
  ⟨1, "Laptop", "Electronics", 5, "2024-01-15", "in use", "Room 101", "", ""⟩

def st1 : Store := ⟨[laptopRow], 2⟩

def chairRow : Row :=
  ⟨1, "Chair", "Furniture", 4, "2024-01-15", "in use", "Room 1", "", ""⟩

def stF : Store := ⟨[chairRow], 2⟩

/-! ## Helper lemmas -/

theorem string_eq_of_data_eq {s t : String} (h : s.data = t.data) : s = t := by
  cases s; cases t; exact congrArg String.mk h

theorem charListLt_trans :
    ∀ {a b c : List Char}, charListLt a b = true → charListLt b c = true →
      charListLt a c = true
  | [], [], _, hab, _ => by simp [charListLt] at hab
  | [], _ :: _, [], _, hbc => by simp [charListLt] at hbc
  | [], _ :: _, _ :: _, _, _ => by simp [charListLt]
  | _ :: _, [], _, hab, _ => by simp [charListLt] at hab
  | _ :: _, _ :: _, [], _, hbc => by simp [charListLt] at hbc
  | x :: as, y :: bs, z :: cs, hab, hbc => by
    simp only [charListLt] at hab hbc ⊢
    by_cases hxy : x = y
    · subst hxy
      by_cases hyz : x = z
      · subst hyz
        simp only [if_pos rfl] at hab hbc ⊢
        exact charListLt_trans hab hbc
      · simp only [if_pos rfl, if_neg hyz] at hab hbc ⊢
        exact hbc
    · by_cases hyz : y = z
      · subst hyz
        simp only [if_neg hxy] at hab ⊢
        exact hab
      · simp only [if_neg hxy] at hab
        simp only [if_neg hyz] at hbc
        have hxz : x < z := lt_trans (of_decide_eq_true hab) (of_decide_eq_true hbc)
        simp only [if_neg (ne_of_lt hxz), decide_eq_true_eq]
        exact hxz

theorem charListLt_conn :
    ∀ {a b : List Char}, charListLt a b = false → charListLt b a = false → a = b
  | [], [], _, _ => rfl
  | [], _ :: _, hab, _ => by simp [charListLt] at hab
  | _ :: _, [], _, hba => by simp [charListLt] at hba
  | x :: as, y :: bs, hab, hba => by
    simp only [charListLt] at hab hba
    by_cases hxy : x = y
    · subst hxy
      simp only [if_pos rfl] at hab hba
      rw [charListLt_conn hab hba]
    · have h1 : ¬ x < y := of_decide_eq_false (by simpa [hxy] using hab)
      have h2 : ¬ y < x := of_decide_eq_false (by simpa [Ne.symm hxy] using hba)
      rcases lt_trichotomy x y with h | h | h
      · exact absurd h h1
      · exact absurd h hxy
      · exact absurd h h2

theorem nameIdLt_trans {a b c : Row} (hab : nameIdLt a b) (hbc : nameIdLt b c) :
    nameIdLt a c := by
  rcases hab with h1 | ⟨h1, h1'⟩ <;> rcases hbc with h2 | ⟨h2, h2'⟩
  · exact Or.inl (charListLt_trans h1 h2)
  · exact Or.inl (h2 ▸ h1)
  · exact Or.inl (h1 ▸ h2)
  · exact Or.inr ⟨h1.trans h2, h1'.trans h2'⟩

theorem nameIdLt_of_nameLe {a b : Row} (h : nameLe a b = true)
    (hid : a.id < b.id) : nameIdLt a b := by
  have h' : charListLt b.name.data a.name.data = false := by
    simpa [nameLe] using h
  by_cases hl : charListLt a.name.data b.name.data = true
  · exact Or.inl hl
  · exact Or.inr ⟨string_eq_of_data_eq
      (charListLt_conn (Bool.eq_false_iff.mpr hl) h'), hid⟩

theorem nameIdLt_of_not_nameLe {a b : Row} (h : nameLe a b = false) :
    nameIdLt b a := by
  simp only [nameLe, Bool.not_eq_false'] at h
  exact Or.inl h

theorem orderedInsert_pairwise {a : Row} :
    ∀ {l : List Row}, l.Pairwise nameIdLt → (∀ x ∈ l, a.id < x.id) →
      (l.orderedInsert (fun a b => nameLe a b = true) a).Pairwise nameIdLt
  | [], _, _ => List.pairwise_singleton _ _
  | x :: xs, h, hall => by
    rw [List.orderedInsert]
    rcases List.pairwise_cons.mp h with ⟨hx, hxs⟩
    by_cases hle : nameLe a x = true
    · rw [if_pos hle]
      have hax : nameIdLt a x := nameIdLt_of_nameLe hle (hall x (by simp))
      exact List.pairwise_cons.mpr
        ⟨fun y hy => by
          rcases List.mem_cons.mp hy with rfl | hy'
          · exact hax
          · exact nameIdLt_trans hax (hx y hy'), h⟩
    · rw [if_neg hle]
      refine List.pairwise_cons.mpr ⟨fun y hy => ?_, ?_⟩
      · rcases (List.mem_orderedInsert _).mp hy with rfl | hy'
        · exact nameIdLt_of_not_nameLe (Bool.eq_false_iff.mpr hle)
        · exact hx y hy'
      · exact orderedInsert_pairwise hxs fun y hy => hall y (by simp [hy])

theorem sortByName_pairwise :
    ∀ {l : List Row}, l.Pairwise (fun a b => a.id < b.id) →
      (sortByName l).Pairwise nameIdLt
  | [], _ => List.Pairwise.nil
  | x :: l, h => by
    rcases List.pairwise_cons.mp h with ⟨hx, hl⟩
    show (List.orderedInsert _ x (List.insertionSort _ l)).Pairwise nameIdLt
    exact orderedInsert_pairwise (sortByName_pairwise hl)
      fun y hy => hx y ((List.mem_insertionSort _).mp hy)

theorem sortByName_perm (l : List Row) : (sortByName l).Perm l :=
  List.perm_insertionSort _ l

/-! ### Lemmas about the update collection loop -/

theorem collectFields_ok_mem :
    ∀ {kwargs : List (String × Option UpdValue)} {ups : List (String × UpdValue)},
      collectFields kwargs = .ok ups → ∀ q ∈ ups,
        (q.1, some q.2) ∈ kwargs ∧ valid_fields.contains q.1 = true ∧ entryOk q
  | [], ups, h, q, hq => by
    simp only [collectFields, Except.ok.injEq] at h
    subst h; simp at hq
  | (f, none) :: rest, ups, h, q, hq => by
    simp only [collectFields] at h
    have ih := collectFields_ok_mem h q hq
    exact ⟨List.mem_cons_of_mem _ ih.1, ih.2⟩
  | (f, some (UpdValue.i n)) :: rest, ups, h, q, hq => by
    simp only [collectFields] at h
    by_cases hf : valid_fields.contains f
    · rw [if_pos hf] at h
      by_cases hfq : f = "quantity"
      · rw [if_pos hfq] at h
        by_cases hn : n < 0
        · rw [if_pos hn] at h; exact absurd h (by simp)
        · rw [if_neg hn] at h
          cases hrest : collectFields rest with
          | error m => rw [hrest] at h; exact absurd h (by simp [Except.map])
          | ok ups' =>
            rw [hrest] at h
            simp only [Except.map, Except.ok.injEq] at h
            subst h
            rcases List.mem_cons.mp hq with rfl | hmem
            · refine ⟨by simp, hf, fun _ m hm => ?_, fun hd => ?_⟩
              · simp only [UpdValue.i.injEq] at hm
                subst hm; exact le_of_not_lt hn
              · rw [hfq] at hd; exact absurd hd (by simp)
            · have ih := collectFields_ok_mem hrest q hmem
              exact ⟨List.mem_cons_of_mem _ ih.1, ih.2⟩
      · rw [if_neg hfq] at h
        by_cases hfd : f = "purchase_date"
        · rw [if_pos hfd] at h; exact absurd h (by simp)
        · rw [if_neg hfd] at h
          cases hrest : collectFields rest with
          | error m => rw [hrest] at h; exact absurd h (by simp [Except.map])
          | ok ups' =>
            rw [hrest] at h
            simp only [Except.map, Except.ok.injEq] at h
            subst h
            rcases List.mem_cons.mp hq with rfl | hmem
            · exact ⟨by simp, hf, fun hq' => absurd hq' hfq, fun hd' => absurd hd' hfd⟩
            · have ih := collectFields_ok_mem hrest q hmem
              exact ⟨List.mem_cons_of_mem _ ih.1, ih.2⟩
    · rw [if_neg hf] at h
      have ih := collectFields_ok_mem h q hq
      exact ⟨List.mem_cons_of_mem _ ih.1, ih.2⟩
  | (f, some (UpdValue.s d)) :: rest, ups, h, q, hq => by
    simp only [collectFields] at h
    by_cases hf : valid_fields.contains f
    · rw [if_pos hf] at h
      by_cases hfq : f = "quantity"
      · rw [if_pos hfq] at h; exact absurd h (by simp)
      · rw [if_neg hfq] at h
        by_cases hfd : f = "purchase_date"
        · rw [if_pos hfd] at h
          by_cases hd : validDate d
          · rw [if_pos hd] at h
            cases hrest : collectFields rest with
            | error m => rw [hrest] at h; exact absurd h (by simp [Except.map])
            | ok ups' =>
              rw [hrest] at h
              simp only [Except.map, Except.ok.injEq] at h
              subst h
              rcases List.mem_cons.mp hq with rfl | hmem
              · refine ⟨by simp, hf, fun hq' => ?_, fun _ e he => ?_⟩
                · rw [hfd] at hq'; exact absurd hq' (by simp)
                · simp only [UpdValue.s.injEq] at he
                  subst he; exact hd
              · have ih := collectFields_ok_mem hrest q hmem
                exact ⟨List.mem_cons_of_mem _ ih.1, ih.2⟩
          · rw [if_neg hd] at h; exact absurd h (by simp)
        · rw [if_neg hfd] at h
          cases hrest : collectFields rest with
          | error m => rw [hrest] at h; exact absurd h (by simp [Except.map])
          | ok ups' =>
            rw [hrest] at h
            simp only [Except.map, Except.ok.injEq] at h
            subst h
            rcases List.mem_cons.mp hq with rfl | hmem
            · exact ⟨by simp, hf, fun hq' => absurd hq' hfq, fun hd' => absurd hd' hfd⟩
            · have ih := collectFields_ok_mem hrest q hmem
              exact ⟨List.mem_cons_of_mem _ ih.1, ih.2⟩
    · rw [if_neg hf] at h
      have ih := collectFields_ok_mem h q hq
      exact ⟨List.mem_cons_of_mem _ ih.1, ih.2⟩

theorem collectFields_keys_sublist :
    ∀ {kwargs : List (String × Option UpdValue)} {ups : List (String × UpdValue)},
      collectFields kwargs = .ok ups →
        (ups.map Prod.fst).Sublist (kwargs.map Prod.fst)
  | [], ups, h => by
    simp only [collectFields, Except.ok.injEq] at h
    subst h; simp
  | (f, none) :: rest, ups, h => by
    simp only [collectFields] at h
    exact (collectFields_keys_sublist h).trans (by simp)
  | (f, some (UpdValue.i n)) :: rest, ups, h => by
    simp only [collectFields] at h
    by_cases hf : valid_fields.contains f
    · rw [if_pos hf] at h
      have main : ∀ {w : UpdValue},
          (collectFields rest).map (fun ups => (f, w) :: ups) = .ok ups →
          (ups.map Prod.fst).Sublist
            (((f, some (UpdValue.i n)) :: rest).map Prod.fst) := by
        intro w hw
        cases hrest : collectFields rest with
        | error m => rw [hrest] at hw; exact absurd hw (by simp [Except.map])
        | ok ups' =>
          rw [hrest] at hw
          simp only [Except.map, Except.ok.injEq] at hw
          subst hw
          simpa using List.Sublist.cons₂ f (collectFields_keys_sublist hrest)
      by_cases hfq : f = "quantity"
      · rw [if_pos hfq] at h
        by_cases hn : n < 0
        · rw [if_pos hn] at h; exact absurd h (by simp)
        · rw [if_neg hn] at h; exact main h
      · rw [if_neg hfq] at h
        by_cases hfd : f = "purchase_date"
        · rw [if_pos hfd] at h; exact absurd h (by simp)
        · rw [if_neg hfd] at h; exact main h
    · rw [if_neg hf] at h
      exact (collectFields_keys_sublist h).trans (by simp)
  | (f, some (UpdValue.s d)) :: rest, ups, h => by
    simp only [collectFields] at h
    by_cases hf : valid_fields.contains f
    · rw [if_pos hf] at h
      have main : ∀ {w : UpdValue},
          (collectFields rest).map (fun ups => (f, w) :: ups) = .ok ups →
          (ups.map Prod.fst).Sublist
            (((f, some (UpdValue.s d)) :: rest).map Prod.fst) := by
        intro w hw
        cases hrest : collectFields rest with
        | error m => rw [hrest] at hw; exact absurd hw (by simp [Except.map])
        | ok ups' =>
          rw [hrest] at hw
          simp only [Except.map, Except.ok.injEq] at hw
          subst hw
          simpa using List.Sublist.cons₂ f (collectFields_keys_sublist hrest)
      by_cases hfq : f = "quantity"
      · rw [if_pos hfq] at h; exact absurd h (by simp)
      · rw [if_neg hfq] at h
        by_cases hfd : f = "purchase_date"
        · rw [if_pos hfd] at h
          by_cases hd : validDate d
          · rw [if_pos hd] at h; exact main h
          · rw [if_neg hd] at h; exact absurd h (by simp)
        · rw [if_neg hfd] at h; exact main h
    · rw [if_neg hf] at h
      exact (collectFields_keys_sublist h).trans (by simp)

theorem collectFields_erase_none :
    ∀ (kw₁ : List (String × Option UpdValue)) (f : String)
      (kw₂ : List (String × Option UpdValue)),
      collectFields (kw₁ ++ (f, none) :: kw₂) = collectFields (kw₁ ++ kw₂)
  | [], _, _ => rfl
  | (g, none) :: kw₁, f, kw₂ => by
    simpa only [List.cons_append, collectFields] using
      collectFields_erase_none kw₁ f kw₂
  | (g, some v) :: kw₁, f, kw₂ => by
    simp only [List.cons_append, collectFields, List.append_eq]
    rw [collectFields_erase_none kw₁ f kw₂]

theorem collectFields_all_none :
    ∀ {kw : List (String × Option UpdValue)}, (∀ p ∈ kw, p.2 = none) →
      collectFields kw = .ok []
  | [], _ => rfl
  | (f, ov) :: kw, h => by
    have h0 := h (f, ov) (by simp)
    simp only at h0
    subst h0
    simp only [collectFields]
    exact collectFields_all_none fun p hp => h p (List.mem_cons_of_mem _ hp)

/-! ### Lemmas about applying collected assignments -/

theorem applyField_id (r : Row) (q : String × UpdValue) :
    (applyField r q).id = r.id := by
  rcases q with ⟨f, v⟩
  unfold applyField
  split <;> rfl

theorem applyUpdates_id (r : Row) :
    ∀ ups : List (String × UpdValue), (applyUpdates r ups).id = r.id
  | [] => rfl
  | q :: ups => by
    show (applyUpdates (applyField r q) ups).id = r.id
    rw [applyUpdates_id (applyField r q) ups, applyField_id]

theorem applyField_getF_ne (r : Row) (q : String × UpdValue) (f : String)
    (h : q.1 ≠ f) : getF (applyField r q) f = getF r f := by
  rcases q with ⟨g, v⟩
  unfold applyField
  split <;> (unfold getF) <;> (split <;> simp_all)

theorem applyField_getF_self (r : Row) (f : String) (v : UpdValue)
    (hf : valid_fields.contains f = true) (ht : typedVal f v = true) :
    getF (applyField r (f, v)) f = some v := by
  have hf' : f = "name" ∨ f = "category" ∨ f = "quantity" ∨ f = "purchase_date" ∨
      f = "status" ∨ f = "location" ∨ f = "responsible_person" ∨ f = "notes" := by
    simpa [valid_fields] using hf
  rcases hf' with rfl | rfl | rfl | rfl | rfl | rfl | rfl | rfl <;>
    cases v <;> simp_all [typedVal, applyField, getF]

theorem applyUpdates_getF_frame :
    ∀ (ups : List (String × UpdValue)) (r : Row) (f : String),
      f ∉ ups.map Prod.fst → getF (applyUpdates r ups) f = getF r f
  | [], _, _, _ => rfl
  | q :: ups, r, f, h => by
    have h1 : q.1 ≠ f := fun he => h (by simp [he])
    have h2 : f ∉ ups.map Prod.fst := fun hm => h (List.mem_cons_of_mem _ hm)
    show getF (applyUpdates (applyField r q) ups) f = getF r f
    rw [applyUpdates_getF_frame ups (applyField r q) f h2, applyField_getF_ne r q f h1]

theorem applyUpdates_getF_set :
    ∀ {ups : List (String × UpdValue)} (r : Row) {f : String} {v : UpdValue},
      (f, v) ∈ ups → (ups.map Prod.fst).Nodup →
      valid_fields.contains f = true → typedVal f v = true →
      getF (applyUpdates r ups) f = some v
  | [], _, _, _, h, _, _, _ => absurd h (List.not_mem_nil _)
  | q :: ups, r, f, v, h, hnd, hf, ht => by
    simp only [List.map_cons, List.nodup_cons] at hnd
    rcases List.mem_cons.mp h with rfl | hmem
    · show getF (applyUpdates (applyField r (f, v)) ups) f = some v
      rw [applyUpdates_getF_frame ups _ f hnd.1]
      exact applyField_getF_self r f v hf ht
    · show getF (applyUpdates (applyField r q) ups) f = some v
      exact applyUpdates_getF_set (applyField r q) hmem hnd.2 hf ht

theorem applyField_rowOk {r : Row} {q : String × UpdValue}
    (h : RowOk r) (hok : entryOk q) : RowOk (applyField r q) := by
  rcases q with ⟨f, v⟩
  rcases hok with ⟨hq, hd⟩
  unfold applyField
  split <;> simp_all [RowOk]

theorem applyUpdates_rowOk :
    ∀ {ups : List (String × UpdValue)} {r : Row}, RowOk r →
      (∀ q ∈ ups, entryOk q) → RowOk (applyUpdates r ups)
  | [], _, h, _ => h
  | q :: ups, r, h, hok => by
    show RowOk (applyUpdates (applyField r q) ups)
    exact applyUpdates_rowOk (applyField_rowOk h (hok q (by simp)))
      fun p hp => hok p (List.mem_cons_of_mem _ hp)

/-! ### Unfolding helpers for the operations -/

theorem update_item_unfold (e : Bool) (item_id : Nat)
    (kwargs : List (String × Option UpdValue)) (st : Store) (h : kwargs ≠ []) :
    update_item e item_id kwargs st =
      match collectFields kwargs with
      | .error m => (m, st)
      | .ok ups =>
        if ups.isEmpty then (.noFields, st)
        else if !e then (.dbError, st)
        else if st.rows.any (fun r => r.id == item_id) then
          (.updated,
           ⟨st.rows.map fun r => if r.id == item_id then applyUpdates r ups else r,
            st.nextId⟩)
        else (.notFound, st) := by
  unfold update_item
  rw [if_neg (by simpa using h)]

theorem update_item_updated {item_id : Nat}
    {kwargs : List (String × Option UpdValue)} {ups : List (String × UpdValue)}
    (st : Store) (hc : collectFields kwargs = .ok ups) (hne : ups ≠ [])
    (hex : st.rows.any (fun r => r.id == item_id) = true) :
    update_item true item_id kwargs st =
      (.updated,
       ⟨st.rows.map fun r => if r.id == item_id then applyUpdates r ups else r,
        st.nextId⟩) := by
  have hkw : kwargs ≠ [] := by
    rintro rfl
    simp only [collectFields, Except.ok.injEq] at hc
    exact hne hc.symm
  rw [update_item_unfold _ _ _ _ hkw, hc]
  simp [hne, hex]

/-- Either an operation left the store untouched, or (for update) it
rewrote exactly the matching row with validated assignments. -/
theorem update_item_st (e : Bool) (item_id : Nat)
    (kwargs : List (String × Option UpdValue)) (st : Store) :
    (update_item e item_id kwargs st).2 = st ∨
    ∃ ups, collectFields kwargs = .ok ups ∧ (∀ q ∈ ups, entryOk q) ∧
      (update_item e item_id kwargs st).2 =
        ⟨st.rows.map fun r => if r.id == item_id then applyUpdates r ups else r,
         st.nextId⟩ := by
  by_cases hkw : kwargs = []
  · subst hkw; left; rfl
  · rw [update_item_unfold _ _ _ _ hkw]
    cases hc : collectFields kwargs with
    | error m => left; rfl
    | ok ups =>
      simp only []
      by_cases hemp : ups.isEmpty
      · rw [if_pos hemp]; left; rfl
      · rw [if_neg hemp]
        by_cases he : e
        · subst he
          by_cases hany : st.rows.any (fun r => r.id == item_id)
          · rw [if_neg (by decide), if_pos hany]
            exact Or.inr ⟨ups, rfl, fun q hq => (collectFields_ok_mem hc q hq).2.2, rfl⟩
          · rw [if_neg (by decide), if_neg hany]
            left; rfl
        · simp only [Bool.not_eq_true] at he
          subst he; left; rfl

theorem delete_item_st (e : Bool) (item_id : Nat) (st : Store) :
    (delete_item e item_id st).2 = st ∨
    (delete_item e item_id st).2 = ⟨st.rows.filter (fun r => r.id != item_id), st.nextId⟩ := by
  unfold delete_item
  split
  · left; rfl
  · split
    · right; rfl
    · left; rfl

/-- Case analysis for `create_item`: on any failure the store is
untouched and the success message is not printed; on success the new
row is appended with the AUTOINCREMENT id and the counter advances. -/
theorem create_item_st (e : Bool) (inp : CreateInput) (st : Store) :
    ((create_item e inp st).st = st ∧ (create_item e inp st).msg ≠ .success) ∨
    (createValid inp = true ∧ e = true ∧
      create_item e inp st =
        ⟨.success, none, ⟨st.rows ++ [mkRow st.nextId inp], st.nextId + 1⟩⟩) := by
  unfold create_item
  split_ifs with h1 h2 h3 h4
  · left; exact ⟨rfl, by simp⟩
  · left; exact ⟨rfl, by simp⟩
  · left; exact ⟨rfl, by simp⟩
  · left; exact ⟨rfl, by simp⟩
  · right
    have h1' : requiredMissing inp.name inp.category inp.purchase_date
        inp.status inp.location = false := by
      revert h1
      cases requiredMissing inp.name inp.category inp.purchase_date
        inp.status inp.location <;> simp
    have h3' : validDate inp.purchase_date = true := by
      revert h3; cases validDate inp.purchase_date <;> simp
    have h4' : e = true := by revert h4; cases e <;> simp
    refine ⟨?_, h4', rfl⟩
    simp [createValid, h1', h3', decide_eq_true_eq, not_lt.mp h2]

theorem read_items_none (st : Store) :
    read_items true none st = ⟨sortByName st.rows, false⟩ := by
  unfold read_items
  have h : rowMatches (appliedConds none) = fun _ => true :=
    funext fun r => by simp [appliedConds, rowMatches]
  simp only [appliedConds] at h
  simp [appliedConds, h]

/-! ## Claim theorems -/

/-- C1: for every create call, validation runs in a fixed order with the
first failure winning: a missing required field (any of name, category,
purchaseDate, status, location empty) is reported first; otherwise a
negative quantity; otherwise a purchase date that strptime rejects — and
on every validation failure the store is unchanged (the row is not
written) and None is returned. -/
theorem create_validation_order (e : Bool) (inp : CreateInput) (st : Store) :
    (requiredMissing inp.name inp.category inp.purchase_date inp.status
        inp.location = true →
      create_item e inp st = ⟨.valErr .missingRequiredField, none, st⟩)
  ∧ (requiredMissing inp.name inp.category inp.purchase_date inp.status
        inp.location = false →
      inp.quantity < 0 →
      create_item e inp st = ⟨.valErr .negativeQuantity, none, st⟩)
  ∧ (requiredMissing inp.name inp.category inp.purchase_date inp.status
        inp.location = false →
      0 ≤ inp.quantity → validDate inp.purchase_date = false →
      create_item e inp st = ⟨.valErr .invalidDateFormat, none, st⟩) := by
  refine ⟨fun h1 => ?_, fun h1 h2 => ?_, fun h1 h2 h3 => ?_⟩
  · simp [create_item, h1]
  · simp [create_item, h1, h2]
  · simp [create_item, h1, h3, not_lt.mpr h2]

theorem create_validation_order_witness :
    create_item true ⟨"", "Electronics", 5, "2024-01-15", "in use",
        "Room 101", "", ""⟩ emptyStore
      = ⟨.valErr .missingRequiredField, none, emptyStore⟩
  ∧ create_item true ⟨"Laptop", "Electronics", -1, "2024-01-15", "in use",
        "Room 101", "", ""⟩ emptyStore
      = ⟨.valErr .negativeQuantity, none, emptyStore⟩
  ∧ create_item true ⟨"Laptop", "Electronics", 5, "2024-13-40", "in use",
        "Room 101", "", ""⟩ emptyStore
      = ⟨.valErr .invalidDateFormat, none, emptyStore⟩ :=
  ⟨(create_validation_order true _ emptyStore).1 (by decide),
   (create_validation_order true _ emptyStore).2.1 (by decide) (by decide),
   (create_validation_order true _ emptyStore).2.2 (by decide) (by decide)
     (by decide)⟩

/-- C5: every validation failure in the update loop aborts the whole
update with the store untouched, for every engine state — the loop runs
before the connection is opened, so nothing is written (all-or-nothing);
an update supplying no recognized field (or nothing at all) is rejected
without change; a supplied negative quantity or malformed purchase date
is exactly what the loop rejects. -/
theorem update_validation_all_or_nothing (e : Bool) (item_id : Nat)
    (kwargs : List (String × Option UpdValue)) (st : Store) :
    (∀ m, collectFields kwargs = .error m →
      update_item e item_id kwargs st = (m, st))
  ∧ (collectFields kwargs = .ok [] → kwargs ≠ [] →
      update_item e item_id kwargs st = (.noFields, st))
  ∧ update_item e item_id [] st = (.noData, st)
  ∧ (∀ (n : Int) (rest : List (String × Option UpdValue)), n < 0 →
      collectFields (("quantity", some (.i n)) :: rest) =
        .error (.valErr .negativeQuantity))
  ∧ (∀ (d : String) (rest : List (String × Option UpdValue)),
      validDate d = false →
      collectFields (("purchase_date", some (.s d)) :: rest) =
        .error (.valErr .invalidDateFormat)) := by
  refine ⟨fun m hm => ?_, fun hok hne => ?_, rfl, fun n rest hn => ?_,
    fun d rest hd => ?_⟩
  · have hkw : kwargs ≠ [] := by
      rintro rfl
      simp [collectFields] at hm
    rw [update_item_unfold _ _ _ _ hkw, hm]
  · rw [update_item_unfold _ _ _ _ hne, hok]
    rfl
  · simp only [collectFields]
    simp [hn]
    intro hmem
    exact absurd (by decide : "quantity" ∈ valid_fields) hmem
  · simp only [collectFields]
    simp [hd]
    intro hmem
    exact absurd (by decide : "purchase_date" ∈ valid_fields) hmem

theorem update_validation_all_or_nothing_witness :
    update_item true 1 [("quantity", some (UpdValue.i (-1)))] st1 =
      (.valErr .negativeQuantity, st1)
  ∧ update_item true 1 [("memo", some (UpdValue.s "x"))] st1 =
      (.noFields, st1)
  ∧ update_item true 1 [] st1 = (.noData, st1) :=
  ⟨(update_validation_all_or_nothing true 1 _ st1).1 _ rfl,
   (update_validation_all_or_nothing true 1 _ st1).2.1 rfl (by decide),
   (update_validation_all_or_nothing true 1 [] st1).2.2.1⟩

/-- C6 counterexample: on engine failure a query does not raise anything;
the sqlite3.Error is caught, a message is printed, and the empty list is
returned as a normal value — even though the store holds a row that a
successful read returns. -/
theorem storage_failure_returns_normal_value :
    (read_items false none st1).ret = []
  ∧ (read_items false none st1).dbErrorPrinted = true
  ∧ st1.rows = [laptopRow]
  ∧ (read_items true none st1).ret = [laptopRow] := by decide

/-- C6 amended: every operation catches the engine failure inside the
method: the store is unchanged (no partial write), a db-error diagnostic
is printed, and a benign value is returned (query returns the empty
list); no storage error propagates to the caller. -/
theorem storage_failure_swallowed_spec (st : Store)
    (filters : Option (List (String × String))) (inp : CreateInput)
    (item_id : Nat) (kwargs : List (String × Option UpdValue))
    (ups : List (String × UpdValue)) (hv : createValid inp = true)
    (hc : collectFields kwargs = .ok ups) (hne : ups ≠ []) :
    read_items false filters st = ⟨[], true⟩
  ∧ create_item false inp st = ⟨.dbError, none, st⟩
  ∧ update_item false item_id kwargs st = (.dbError, st)
  ∧ delete_item false item_id st = (.dbError, st) := by
  refine ⟨by simp [read_items], ?_, ?_, by simp [delete_item]⟩
  · simp only [createValid, Bool.and_eq_true, Bool.not_eq_true',
      decide_eq_true_eq] at hv
    obtain ⟨⟨h1, h2⟩, h3⟩ := hv
    simp [create_item, h1, h3, not_lt.mpr h2]
  · have hkw : kwargs ≠ [] := by
      rintro rfl
      simp only [collectFields, Except.ok.injEq] at hc
      exact hne hc.symm
    rw [update_item_unfold _ _ _ _ hkw, hc]
    simp [hne]

theorem storage_failure_swallowed_spec_witness :
    read_items false none st1 = ⟨[], true⟩
  ∧ create_item false laptopInput st1 = ⟨.dbError, none, st1⟩
  ∧ update_item false 1 [("quantity", some (UpdValue.i 3))] st1 =
      (.dbError, st1)
  ∧ delete_item false 1 st1 = (.dbError, st1) :=
  storage_failure_swallowed_spec st1 none laptopInput 1
    [("quantity", some (UpdValue.i 3))] [("quantity", UpdValue.i 3)]
    (by decide) rfl (by decide)

/-- C7: update and delete on an id that matches no stored row are
no-ops reported through the distinct not-found outcome (never an
error), and deleting the same id twice reports removed then not
found. -/
theorem missing_id_reported_not_found (st : Store) (item_id did : Nat)
    (kwargs : List (String × Option UpdValue))
    (ups : List (String × UpdValue)) (hc : collectFields kwargs = .ok ups)
    (hne : ups ≠ []) (hid : ∀ r ∈ st.rows, r.id ≠ item_id) :
    update_item true item_id kwargs st = (.notFound, st)
  ∧ delete_item true item_id st = (.notFound, st)
  ∧ (did ∈ st.rows.map Row.id →
      (delete_item true did st).1 = .deleted ∧
      delete_item true did (delete_item true did st).2 =
        (.notFound, (delete_item true did st).2)) := by
  have hany : (st.rows.any fun r => r.id == item_id) = false := by
    rw [List.any_eq_false]
    intro r hr
    simpa using hid r hr
  have hkw : kwargs ≠ [] := by
    rintro rfl
    simp only [collectFields, Except.ok.injEq] at hc
    exact hne hc.symm
  refine ⟨?_, by simp [delete_item, hany], fun hdid => ?_⟩
  · rw [update_item_unfold _ _ _ _ hkw, hc]
    simp [hne, hany]
  · have hany2 : (st.rows.any fun r => r.id == did) = true := by
      rw [List.any_eq_true]
      rcases List.mem_map.mp hdid with ⟨r, hr, hrid⟩
      exact ⟨r, hr, by simp [hrid]⟩
    have hdel : delete_item true did st =
        (.deleted, ⟨st.rows.filter fun r => r.id != did, st.nextId⟩) := by
      simp [delete_item, hany2]
    have hany3 : ((st.rows.filter fun r => r.id != did).any
        fun r => r.id == did) = false := by
      rw [List.any_eq_false]
      intro r hr
      have := (List.mem_filter.mp hr).2
      simpa using this
    constructor
    · rw [hdel]
    · rw [hdel]
      simp [delete_item, hany3]

theorem missing_id_reported_not_found_witness :
    update_item true 99 [("quantity", some (UpdValue.i 3))] st1 =
      (.notFound, st1)
  ∧ delete_item true 99 st1 = (.notFound, st1)
  ∧ (delete_item true 1 st1).1 = .deleted
  ∧ delete_item true 1 (delete_item true 1 st1).2 =
      (.notFound, (delete_item true 1 st1).2) := by
  have h := missing_id_reported_not_found st1 99 1
    [("quantity", some (UpdValue.i 3))] [("quantity", UpdValue.i 3)]
    rfl (by decide) (by decide)
  exact ⟨h.1, h.2.1, (h.2.2 (by decide)).1, (h.2.2 (by decide)).2⟩

/-- C8 counterexample: the filter key "hacked" is not a recognized
column name, yet the query builder interpolates it into the SQL
condition list unvalidated. -/
theorem unrecognized_filter_key_reaches_query :
    (buildConditions [("hacked", "x")]).1 = ["hacked LIKE ?"]
  ∧ isCol "hacked" = false := by decide

/-- C8 amended: every filter entry with a non-empty pattern contributes
the condition "key LIKE ?" to the query text with the key interpolated
unvalidated, recognized or not, and every constructed condition arises
from such an entry — so the query builder performs no validation of
field names at all and unrecognized keys do reach the query layer.
(What the engine then does with a given key is outside the model.) -/
theorem filter_key_interpolated_unvalidated (fs : List (String × String))
    (p : String × String) (hp : p ∈ fs) (hv : p.2 ≠ "") :
    (p.1 ++ " LIKE ?") ∈ (buildConditions fs).1
  ∧ ∀ c : String, c ∈ (buildConditions fs).1 →
      ∃ q : String × String, q ∈ fs ∧ q.2 ≠ "" ∧ c = q.1 ++ " LIKE ?" := by
  constructor
  · exact List.mem_map_of_mem _ (List.mem_filter.mpr ⟨hp, by simpa using hv⟩)
  · intro c hc
    rcases List.mem_map.mp hc with ⟨q, hq, rfl⟩
    have hqf := List.mem_filter.mp hq
    exact ⟨q, hqf.1, by simpa using hqf.2, rfl⟩

theorem filter_key_interpolated_unvalidated_witness :
    ("hacked" ++ " LIKE ?") ∈ (buildConditions [("hacked", "x")]).1
  ∧ ∀ c : String, c ∈ (buildConditions [("hacked", "x")]).1 →
      ∃ q : String × String, q ∈ [("hacked", "x")] ∧ q.2 ≠ "" ∧
        c = q.1 ++ " LIKE ?" :=
  filter_key_interpolated_unvalidated [("hacked", "x")] ("hacked", "x")
    (by decide) (by decide)

/-- C9 counterexample: a fully valid create succeeds (the success
message is printed and the row is persisted) yet the function returns
None — the created record, id included, is not returned to the
caller. -/
theorem create_returns_no_record :
    (create_item true laptopInput emptyStore).msg = .success
  ∧ (create_item true laptopInput emptyStore).ret = none
  ∧ (create_item true laptopInput emptyStore).st.rows =
      [mkRow 1 laptopInput] := by decide

/-- C10: a recognized update field supplied as None is skipped exactly
like an absent field — not validated, not written, the resulting store
is identical; and an update whose entries all carry None is rejected as
having no fields to update, mutating nothing. -/
theorem update_none_value_ignored (e : Bool) (item_id : Nat) (f : String)
    (kw₁ kw₂ : List (String × Option UpdValue)) (st : Store) :
    (kw₁ ++ kw₂ ≠ [] →
      update_item e item_id (kw₁ ++ (f, none) :: kw₂) st =
        update_item e item_id (kw₁ ++ kw₂) st)
  ∧ (update_item e item_id (kw₁ ++ (f, none) :: kw₂) st).2 =
      (update_item e item_id (kw₁ ++ kw₂) st).2
  ∧ (∀ kw : List (String × Option UpdValue), (∀ p ∈ kw, p.2 = none) →
      kw ≠ [] → update_item e item_id kw st = (.noFields, st)) := by
  have hcons : kw₁ ++ (f, none) :: kw₂ ≠ [] := by simp
  have part1 : kw₁ ++ kw₂ ≠ [] →
      update_item e item_id (kw₁ ++ (f, none) :: kw₂) st =
        update_item e item_id (kw₁ ++ kw₂) st := by
    intro hne
    rw [update_item_unfold _ _ _ _ hcons, update_item_unfold _ _ _ _ hne,
      collectFields_erase_none]
  have part3 : ∀ kw : List (String × Option UpdValue),
      (∀ p ∈ kw, p.2 = none) → kw ≠ [] →
      update_item e item_id kw st = (.noFields, st) := by
    intro kw hall hkw
    rw [update_item_unfold _ _ _ _ hkw, collectFields_all_none hall]
    rfl
  refine ⟨part1, ?_, part3⟩
  by_cases hcase : kw₁ ++ kw₂ = []
  · rcases List.append_eq_nil.mp hcase with ⟨rfl, rfl⟩
    simp only [List.nil_append]
    rw [part3 [(f, none)] (by simp) (by simp)]
    rfl
  · rw [part1 hcase]

theorem update_none_value_ignored_witness :
    update_item true 1
        [("name", some (UpdValue.s "Box")), ("quantity", none)] st1 =
      update_item true 1 [("name", some (UpdValue.s "Box"))] st1
  ∧ update_item true 1 [("quantity", none), ("name", none)] st1 =
      (.noFields, st1) := by
  have h := update_none_value_ignored true 1 "quantity"
    [("name", some (UpdValue.s "Box"))] [] st1
  exact ⟨h.1 (by decide), h.2.2 [("quantity", none), ("name", none)]
    (by decide) (by decide)⟩

/-- C2 counterexample: starting from the empty store, create a fully
valid record, then update it with name set to the empty string: the
update succeeds and the persisted record now has an empty name, so the
invariant "the five required fields are never empty while the record
exists" fails (update_item never re-checks non-emptiness). -/
theorem update_can_blank_required_field :
    (update_item true 1 [("name", some (UpdValue.s ""))]
        (create_item true laptopInput emptyStore).st).1 = .updated
  ∧ ((update_item true 1 [("name", some (UpdValue.s ""))]
        (create_item true laptopInput emptyStore).st).2.rows.map Row.name) =
      [""] := by decide

/-- C2 amended: across create, update and delete the store keeps the
invariants the code actually maintains: ids strictly increasing and
below the AUTOINCREMENT counter (so an id is assigned once, never
changed — update preserves every id — and never reused), quantity
non-negative and purchase date well-formed in every row; the counter
never decreases, and a successful create appends a row carrying the
fresh id.  (Non-emptiness of the text fields is not an invariant: see
the counterexample.) -/
theorem store_invariants_preserved (e : Bool) (inp : CreateInput)
    (item_id del_id : Nat) (kwargs : List (String × Option UpdValue))
    (st : Store) (hwf : StoreWF st) :
    StoreWF (create_item e inp st).st
  ∧ StoreWF (update_item e item_id kwargs st).2
  ∧ StoreWF (delete_item e del_id st).2
  ∧ (update_item e item_id kwargs st).2.rows.map Row.id = st.rows.map Row.id
  ∧ (update_item e item_id kwargs st).2.nextId = st.nextId
  ∧ (delete_item e del_id st).2.nextId = st.nextId
  ∧ st.nextId ≤ (create_item e inp st).st.nextId
  ∧ ((create_item e inp st).msg = .success →
      (create_item e inp st).st.rows = st.rows ++ [mkRow st.nextId inp] ∧
      (∀ r ∈ st.rows, r.id ≠ st.nextId) ∧
      (create_item e inp st).st.nextId = st.nextId + 1) := by
  obtain ⟨hpw, hbound⟩ := hwf
  have create_wf : StoreWF (create_item e inp st).st ∧
      st.nextId ≤ (create_item e inp st).st.nextId ∧
      ((create_item e inp st).msg = .success →
        (create_item e inp st).st.rows = st.rows ++ [mkRow st.nextId inp] ∧
        (∀ r ∈ st.rows, r.id ≠ st.nextId) ∧
        (create_item e inp st).st.nextId = st.nextId + 1) := by
    rcases create_item_st e inp st with ⟨hst, hmsg⟩ | ⟨hv, _, heq⟩
    · exact ⟨by rw [hst]; exact ⟨hpw, hbound⟩, by rw [hst],
        fun hs => absurd hs hmsg⟩
    · simp only [createValid, Bool.and_eq_true, Bool.not_eq_true',
        decide_eq_true_eq] at hv
      obtain ⟨⟨_, hq⟩, hdate⟩ := hv
      rw [heq]
      refine ⟨⟨?_, ?_⟩, Nat.le_succ _,
        fun _ => ⟨rfl, fun r hr => ne_of_lt (hbound r hr).1, rfl⟩⟩
      · exact List.pairwise_append.mpr ⟨hpw, List.pairwise_singleton _ _,
          fun a ha b hb => by
            rcases List.mem_singleton.mp hb with rfl
            exact (hbound a ha).1⟩
      · intro r hr
        rcases List.mem_append.mp hr with hr | hr
        · exact ⟨Nat.lt_succ_of_lt (hbound r hr).1, (hbound r hr).2⟩
        · rcases List.mem_singleton.mp hr with rfl
          exact ⟨Nat.lt_succ_self _, hq, hdate⟩
  have update_wf : StoreWF (update_item e item_id kwargs st).2 ∧
      (update_item e item_id kwargs st).2.rows.map Row.id =
        st.rows.map Row.id ∧
      (update_item e item_id kwargs st).2.nextId = st.nextId := by
    rcases update_item_st e item_id kwargs st with hst | ⟨ups, _, hok, heq⟩
    · exact ⟨by rw [hst]; exact ⟨hpw, hbound⟩, by rw [hst], by rw [hst]⟩
    · have hgid : ∀ r : Row,
          (if r.id == item_id then applyUpdates r ups else r).id = r.id := by
        intro r
        split
        · exact applyUpdates_id r ups
        · rfl
      rw [heq]
      refine ⟨⟨?_, ?_⟩, ?_, rfl⟩
      · refine List.pairwise_map.mpr (hpw.imp ?_)
        intro a b hab
        show (if a.id == item_id then applyUpdates a ups else a).id <
            (if b.id == item_id then applyUpdates b ups else b).id
        rw [hgid a, hgid b]
        exact hab
      · intro r hr
        rcases List.mem_map.mp hr with ⟨r0, hr0, rfl⟩
        constructor
        · show (if r0.id == item_id then applyUpdates r0 ups else r0).id <
              st.nextId
          rw [hgid r0]
          exact (hbound r0 hr0).1
        · show RowOk (if r0.id == item_id then applyUpdates r0 ups else r0)
          split
          · exact applyUpdates_rowOk (hbound r0 hr0).2 hok
          · exact (hbound r0 hr0).2
      · show ((st.rows.map fun r =>
            if r.id == item_id then applyUpdates r ups else r).map Row.id) =
            st.rows.map Row.id
        rw [List.map_map]
        exact List.map_congr_left fun r _ => hgid r
  have delete_wf : StoreWF (delete_item e del_id st).2 ∧
      (delete_item e del_id st).2.nextId = st.nextId := by
    rcases delete_item_st e del_id st with hst | heq
    · exact ⟨by rw [hst]; exact ⟨hpw, hbound⟩, by rw [hst]⟩
    · rw [heq]
      exact ⟨⟨hpw.sublist (List.filter_sublist _),
        fun r hr => hbound r (List.mem_filter.mp hr).1⟩, rfl⟩
  exact ⟨create_wf.1, update_wf.1, delete_wf.1, update_wf.2.1,
    update_wf.2.2, delete_wf.2, create_wf.2.1, create_wf.2.2⟩

theorem store_invariants_preserved_witness :
    StoreWF (create_item true laptopInput emptyStore).st
  ∧ StoreWF (update_item true 1 [("quantity", some (UpdValue.i 3))] st1).2
  ∧ StoreWF (delete_item true 1 st1).2 := by
  have h0 : StoreWF emptyStore := ⟨List.Pairwise.nil, by simp [emptyStore]⟩
  have h1 : StoreWF st1 := by
    refine ⟨List.pairwise_singleton _ _, ?_⟩
    intro r hr
    rcases List.mem_singleton.mp hr with rfl
    exact ⟨by decide, by decide, by decide⟩
  exact ⟨(store_invariants_preserved true laptopInput 1 1 [] emptyStore h0).1,
    (store_invariants_preserved true laptopInput 1 1
      [("quantity", some (UpdValue.i 3))] st1 h1).2.1,
    (store_invariants_preserved true laptopInput 1 1 [] st1 h1).2.2.1⟩

/-- C3 counterexample: the filter pattern "fURNITURE" is not a literal
substring of the category "Furniture", yet the query returns the row,
because the engine-default LIKE compares ASCII letters
case-insensitively — so "returns exactly the records whose field
contains the pattern as a substring" fails. -/
theorem read_like_not_literal_substring :
    (read_items true (some [("category", "fURNITURE")]) stF).ret = [chairRow]
  ∧ specContains chairRow.category "fURNITURE" = false := by decide

/-- C3 amended: with recognized filter keys the query returns exactly
the rows matching every non-empty filter entry under the engine-default
LIKE semantics of the pattern "%value%" (ASCII-case-insensitive, with %
and _ wildcards) — empty or absent entries ignored, all records with no
filters — ordered by name ascending with ties in id (insertion)
order. -/
theorem read_items_filter_sort_spec (st : Store)
    (filters : Option (List (String × String)))
    (hwf : st.rows.Pairwise (fun a b => a.id < b.id))
    (hcols : ∀ p ∈ appliedConds filters, isCol p.1 = true) :
    (read_items true filters st).dbErrorPrinted = false
  ∧ ((read_items true filters st).ret).Perm
      (st.rows.filter (rowMatches (appliedConds filters)))
  ∧ (∀ r : Row, r ∈ (read_items true filters st).ret ↔
      r ∈ st.rows ∧ rowMatches (appliedConds filters) r = true)
  ∧ ((read_items true filters st).ret).Pairwise nameIdLt
  ∧ ((read_items true none st).ret).Perm st.rows := by
  have hany : ((appliedConds filters).any fun p => !isCol p.1) = false := by
    rw [List.any_eq_false]
    intro p hp
    simp [hcols p hp]
  have hread : read_items true filters st =
      ⟨sortByName (st.rows.filter (rowMatches (appliedConds filters))),
       false⟩ := by
    unfold read_items
    simp [hany]
  refine ⟨by rw [hread], ?_, ?_, ?_, ?_⟩
  · rw [hread]
    exact sortByName_perm _
  · intro r
    rw [hread]
    show r ∈ sortByName (st.rows.filter (rowMatches (appliedConds filters)))
        ↔ _
    rw [(sortByName_perm _).mem_iff, List.mem_filter]
  · rw [hread]
    exact sortByName_pairwise (hwf.sublist (List.filter_sublist _))
  · rw [read_items_none]
    exact sortByName_perm _

theorem read_items_filter_sort_spec_witness :
    (read_items true (some [("category", "urn")]) st1).dbErrorPrinted = false
  ∧ ((read_items true (some [("category", "urn")]) st1).ret).Perm
      (st1.rows.filter (rowMatches (appliedConds (some [("category", "urn")]))))
  ∧ ((read_items true (some [("category", "urn")]) st1).ret).Pairwise
      nameIdLt := by
  have h := read_items_filter_sort_spec st1 (some [("category", "urn")])
    (by decide) (by decide)
  exact ⟨h.1, h.2.1, h.2.2.2.1⟩

/-- C4: a successful update on an existing id overwrites exactly the
supplied recognized (non-None) fields of the matching row with the
supplied values; fields not collected by the loop keep their value, the
row id is untouched, every other row is mapped to itself, and
unrecognized field names never enter the collected assignment list. -/
theorem update_frame_exact_fields (item_id : Nat)
    (kwargs : List (String × Option UpdValue))
    (ups : List (String × UpdValue)) (st : Store)
    (ht : typedKwargs kwargs = true) (hnd : (kwargs.map Prod.fst).Nodup)
    (hc : collectFields kwargs = .ok ups) (hne : ups ≠ [])
    (hex : (st.rows.any fun r => r.id == item_id) = true) :
    (update_item true item_id kwargs st).1 = .updated
  ∧ (update_item true item_id kwargs st).2.rows =
      st.rows.map (fun r => if r.id == item_id then applyUpdates r ups else r)
  ∧ (update_item true item_id kwargs st).2.nextId = st.nextId
  ∧ (∀ r : Row, (applyUpdates r ups).id = r.id)
  ∧ (∀ (r : Row) (f : String), f ∉ ups.map Prod.fst →
      getF (applyUpdates r ups) f = getF r f)
  ∧ (∀ (r : Row) (f : String) (v : UpdValue), (f, v) ∈ ups →
      getF (applyUpdates r ups) f = some v)
  ∧ (∀ q ∈ ups, valid_fields.contains q.1 = true) := by
  have hupd := update_item_updated st hc hne hex
  have hnd2 : (ups.map Prod.fst).Nodup :=
    hnd.sublist (collectFields_keys_sublist hc)
  refine ⟨by rw [hupd], by rw [hupd], by rw [hupd],
    fun r => applyUpdates_id r ups,
    fun r f hf => applyUpdates_getF_frame ups r f hf,
    fun r f v hm => ?_,
    fun q hq => (collectFields_ok_mem hc q hq).2.1⟩
  have hmm := collectFields_ok_mem hc (f, v) hm
  have hty : typedVal f v = true := by
    have := List.all_eq_true.mp ht _ hmm.1
    simpa [typedEntry] using this
  exact applyUpdates_getF_set r hm hnd2 hmm.2.1 hty

theorem update_frame_exact_fields_witness :
    (update_item true 1 [("quantity", some (UpdValue.i 3)),
        ("hacked", some (UpdValue.s "x"))] st1).1 = .updated
  ∧ (update_item true 1 [("quantity", some (UpdValue.i 3)),
        ("hacked", some (UpdValue.s "x"))] st1).2.rows =
      st1.rows.map (fun r => if r.id == 1 then
        applyUpdates r [("quantity", UpdValue.i 3)] else r) := by
  have h := update_frame_exact_fields 1
    [("quantity", some (UpdValue.i 3)), ("hacked", some (UpdValue.s "x"))]
    [("quantity", UpdValue.i 3)] st1 (by decide) (by decide) rfl
    (by decide) (by decide)
  exact ⟨h.1, h.2.1⟩

/-- C9 amended: a valid create on a well-formed store succeeds,
appending exactly the input fields under the fresh id equal to the
AUTOINCREMENT counter (strictly greater than every existing id), and
advancing the counter; a subsequent no-filter query restricted to that
id yields exactly the input-plus-id record.  The created record is not
returned by create_item itself (it returns None). -/
theorem create_success_fresh_id_spec (inp : CreateInput) (st : Store)
    (hv : createValid inp = true) (hwf : StoreWF st) :
    create_item true inp st =
      ⟨.success, none, ⟨st.rows ++ [mkRow st.nextId inp], st.nextId + 1⟩⟩
  ∧ (∀ r ∈ st.rows, r.id < st.nextId)
  ∧ st.nextId < (create_item true inp st).st.nextId
  ∧ (read_items true none (create_item true inp st).st).ret.filter
      (fun r => r.id == st.nextId) = [mkRow st.nextId inp] := by
  obtain ⟨hpw, hbound⟩ := hwf
  have heq : create_item true inp st =
      ⟨.success, none, ⟨st.rows ++ [mkRow st.nextId inp], st.nextId + 1⟩⟩ := by
    simp only [createValid, Bool.and_eq_true, Bool.not_eq_true',
      decide_eq_true_eq] at hv
    obtain ⟨⟨h1, h2⟩, h3⟩ := hv
    simp [create_item, h1, h3, not_lt.mpr h2]
  refine ⟨heq, fun r hr => (hbound r hr).1,
    by rw [heq]; exact Nat.lt_succ_self _, ?_⟩
  rw [heq, read_items_none]
  show (sortByName (st.rows ++ [mkRow st.nextId inp])).filter
      (fun r => r.id == st.nextId) = [mkRow st.nextId inp]
  refine List.perm_singleton.mp ?_
  have hperm := (sortByName_perm (st.rows ++ [mkRow st.nextId inp])).filter
    (fun r => r.id == st.nextId)
  rw [List.filter_append] at hperm
  have h1 : st.rows.filter (fun r => r.id == st.nextId) = [] := by
    rw [List.filter_eq_nil_iff]
    intro r hr
    simp [ne_of_lt (hbound r hr).1]
  have h2 : [mkRow st.nextId inp].filter (fun r => r.id == st.nextId) =
      [mkRow st.nextId inp] := by simp [mkRow]
  rw [h1, h2] at hperm
  simpa using hperm

theorem create_success_fresh_id_spec_witness :
    create_item true laptopInput emptyStore =
      ⟨.success, none, ⟨emptyStore.rows ++ [mkRow emptyStore.nextId laptopInput],
        emptyStore.nextId + 1⟩⟩
  ∧ (read_items true none (create_item true laptopInput emptyStore).st).ret.filter
      (fun r => r.id == emptyStore.nextId) =
      [mkRow emptyStore.nextId laptopInput] := by
  have h := create_success_fresh_id_spec laptopInput emptyStore (by decide)
    ⟨List.Pairwise.nil, by simp [emptyStore]⟩
  exact ⟨h.1, h.2.2.2⟩

end Inventory
